import Mathlib

/-!
Verification of the structured-output recovery engine and the
generation/update pipeline of the code-generator CLI.

The definitions below are a shallow embedding of the TypeScript source:

* `attemptToFixJson`, `parseJsonFromText` and the typed default values
  embed `BaseLLMService` from `services/llm/base.ts`;
* `compileProject` embeds `core/compiler.ts`, with the outcomes of the
  external process invocations (`cat`, `npm run build`, `npx tsc`)
  supplied as an explicit environment value;
* `compileTask` embeds the "Compiling project" task of `generateProject`
  in `core/projectGenerator.ts`, with the provider fix call supplied as
  an explicit outcome value;
* `mergeProjectStructures` embeds the structure reconciler of
  `core/projectGenerator.ts`.

`JSON.parse` and the fenced-code-block regex are platform built-ins, not
code of this repository; they are passed to `parseJsonFromText` as
explicit function arguments, so the theorems about it hold for every
behaviour of those built-ins.  JavaScript strings are modelled as
`List Char` / `String`, arrays as `List`, objects as association lists,
`undefined`/absent values as `Option`, and thrown exceptions as
`Except`.
-/

namespace CodeGen

/-! ## Character classes used by the repair regexes -/

def lbrace : Char := Char.ofNat 123

def rbrace : Char := Char.ofNat 125

def squote : Char := Char.ofNat 39

def dquote : Char := Char.ofNat 34

/-- JavaScript `\s` (the ASCII part plus NBSP and BOM, as in the regex
whitespace class). -/
def jsWs (c : Char) : Bool :=
  c = ' ' || c = '\t' || c = '\n' || c = '\r' ||
  c = Char.ofNat 11 || c = Char.ofNat 12 || c = Char.ofNat 160 || c = Char.ofNat 65279

/-- JavaScript `\w`, i.e. `[A-Za-z0-9_]`. -/
def isWordChar (c : Char) : Bool :=
  (('a' ≤ c && c ≤ 'z') || ('A' ≤ c && c ≤ 'Z') || ('0' ≤ c && c ≤ '9') || c = '_')

/-- The identifier class `[a-zA-Z0-9_$]` of the bare-key regex. -/
def isIdentChar (c : Char) : Bool := isWordChar c || c = '$'

/-- The character class `[}\]]` (a closing brace or bracket). -/
def isCloser (c : Char) : Bool := c = rbrace || c = ']'

/-- The character class `[{[\r\n]` at which the leading strip stops. -/
def isLeadStop (c : Char) : Bool := c = lbrace || c = '[' || c = '\r' || c = '\n'

/-! ## The repair transform `attemptToFixJson` (services/llm/base.ts)

Each regex replacement of the source is embedded as a left-to-right scan
over the character list, with the same match/consume behaviour as the
JavaScript regex engine on the corresponding pattern.  The scanning
functions take a fuel argument (instantiated with the list length) so
that they are structurally recursive and kernel-computable. -/

/-- Regex step `fixed.replace(/^[^{[\r\n]*/, '')`: drop the maximal leading run of
characters that are not `{`, `[`, CR or LF. -/
def stripLeadingNonJson (cs : List Char) : List Char :=
  cs.dropWhile (fun c => !(isLeadStop c))

/-- Regex step `fixed.replace(/[^}\]]*$/, '')`: drop the maximal trailing run of
characters that are not `}` or `]`. -/
def stripTrailingNonCloser (cs : List Char) : List Char :=
  ((cs.reverse.dropWhile (fun c => !(isCloser c))).reverse)

/-- Regex step `fixed.replace(/(\w+)'(\w+)/g, '$1\\"$2')`: between two word runs, an
apostrophe becomes `\"`.  A failed match advances past the word run (the
pattern cannot match starting inside a run it failed on). -/
def fixContractions : Nat → List Char → List Char
  | 0, l => l
  | _, [] => []
  | fuel + 1, c :: rest =>
    if isWordChar c then
      let run := List.takeWhile isWordChar (c :: rest)
      let after := List.dropWhile isWordChar (c :: rest)
      match after with
      | a :: d :: rest2 =>
        if a = squote && isWordChar d then
          let run2 := List.takeWhile isWordChar (d :: rest2)
          let after2 := List.dropWhile isWordChar (d :: rest2)
          run ++ '\\' :: dquote :: run2 ++ fixContractions fuel after2
        else run ++ fixContractions fuel after
      | _ => run ++ fixContractions fuel after
    else c :: fixContractions fuel rest

/-- Regex step `fixed.replace(/'/g, '"')`. -/
def squoteToDquote (cs : List Char) : List Char :=
  cs.map (fun c => if c = squote then dquote else c)

/-- Number of double quotes in a character list. -/
def countQuotes (cs : List Char) : Nat := cs.count dquote

/-- Regex step `fixed.replace(/(?<!\\)"(?=[^"]*"[^"]*(?:"[^"]*"[^"]*)*$)/g, '\\"')`:
a quote not preceded by a backslash and followed by an odd number of
quotes gets a backslash inserted in front of it.  Both the look-behind
and the look-ahead are evaluated against the original string. -/
def escapeQuotes (prev : Option Char) : List Char → List Char
  | [] => []
  | c :: rest =>
    if c = dquote && !(prev == some '\\') && countQuotes rest % 2 == 1 then
      '\\' :: dquote :: escapeQuotes (some c) rest
    else
      c :: escapeQuotes (some c) rest

/-- Regex step `fixed.replace(/}(\s*){/g, '},\n$1{')` and its bracket analogue:
insert `,\n` between a closer and the next opener across whitespace. -/
def insertMissingCommas (cl op : Char) : Nat → List Char → List Char
  | 0, l => l
  | _, [] => []
  | fuel + 1, c :: rest =>
    if c = cl then
      let ws := rest.takeWhile jsWs
      match rest.dropWhile jsWs with
      | d :: rest2 =>
        if d = op then
          c :: ',' :: '\n' :: (ws ++ d :: insertMissingCommas cl op fuel rest2)
        else c :: insertMissingCommas cl op fuel rest
      | [] => c :: insertMissingCommas cl op fuel rest
    else c :: insertMissingCommas cl op fuel rest

/-- Regex step `fixed.replace(/,(\s*[}\]])/g, '$1')`: drop a comma that precedes a
closing brace or bracket across whitespace. -/
def removeTrailingCommas : Nat → List Char → List Char
  | 0, l => l
  | _, [] => []
  | fuel + 1, c :: rest =>
    if c = ',' then
      let ws := rest.takeWhile jsWs
      match rest.dropWhile jsWs with
      | d :: rest2 =>
        if isCloser d then ws ++ d :: removeTrailingCommas fuel rest2
        else c :: removeTrailingCommas fuel rest
      | [] => c :: removeTrailingCommas fuel rest
    else c :: removeTrailingCommas fuel rest

/-- Regex step `fixed.replace(/([{,]\s*)([a-zA-Z0-9_$]+)(\s*:)/g, '$1"$2"$3')`:
quote a bare object key. -/
def quoteBareKeys : Nat → List Char → List Char
  | 0, l => l
  | _, [] => []
  | fuel + 1, c :: rest =>
    if c = lbrace || c = ',' then
      let ws := rest.takeWhile jsWs
      let afterWs := rest.dropWhile jsWs
      let ident := afterWs.takeWhile isIdentChar
      let afterIdent := afterWs.dropWhile isIdentChar
      if ident.isEmpty then c :: quoteBareKeys fuel rest
      else
        let ws2 := afterIdent.takeWhile jsWs
        match afterIdent.dropWhile jsWs with
        | d :: rest2 =>
          if d = ':' then
            c :: (ws ++ dquote :: ident ++ dquote :: ws2 ++ d :: quoteBareKeys fuel rest2)
          else c :: quoteBareKeys fuel rest
        | [] => c :: quoteBareKeys fuel rest
    else c :: quoteBareKeys fuel rest

/-- The trailing-strip loops of the balancing step: remove up to `n`
trailing occurrences of `c`, stopping at the first other last character. -/
def stripExcess (c : Char) : Nat → List Char → List Char
  | 0, s => s
  | n + 1, s =>
    match s.getLast? with
    | some d => if d = c then stripExcess c n s.dropLast else s
    | none => s

/-- The brace/bracket balancing step: count openers and closers, append
the missing closers, then strip excess trailing closers. -/
def balanceFix (s : List Char) : List Char :=
  let braceOpen := s.count lbrace
  let braceClose := s.count rbrace
  let bracketOpen := s.count '['
  let bracketClose := s.count ']'
  let s1 := s ++ List.replicate (braceOpen - braceClose) rbrace
  let s2 := s1 ++ List.replicate (bracketOpen - bracketClose) ']'
  let s3 := stripExcess rbrace (braceClose - braceOpen) s2
  stripExcess ']' (bracketClose - bracketOpen) s3

/-- The repair fixes that precede the balancing step, in source order:
strip non-JSON edges, contractions, single quotes, unescaped quotes,
missing commas, trailing commas, bare keys. -/
def repairedBeforeBalance (text : String) : List Char :=
  let f0 := stripTrailingNonCloser (stripLeadingNonJson text.data)
  let f1 := fixContractions f0.length f0
  let f2 := squoteToDquote f1
  let f3 := escapeQuotes none f2
  let f4 := insertMissingCommas rbrace lbrace f3.length f3
  let f5 := insertMissingCommas ']' '[' f4.length f4
  let f6 := removeTrailingCommas f5.length f5
  quoteBareKeys f6.length f6

/-- Embeds `BaseLLMService.attemptToFixJson`: the ordered sequence of repair
fixes of the source, applied to the whole string, ending with the
brace/bracket balancing step. -/
def attemptToFixJson (text : String) : String :=
  String.mk (balanceFix (repairedBeforeBalance text))

/-! ## Data model (types/index.ts) -/

/-- A component entry of a `ProjectPlan`. -/
structure ComponentSpec where
  name : String
  description : String
  responsibilities : List String
deriving DecidableEq

/-- A field entry of a data model of a `ProjectPlan`. -/
structure FieldSpec where
  name : String
  type : String
  description : String
deriving DecidableEq

/-- A data-model entry of a `ProjectPlan`. -/
structure DataModelSpec where
  name : String
  fields : List FieldSpec
deriving DecidableEq

/-- Interface `ProjectPlan` of types/index.ts. -/
structure ProjectPlan where
  projectName : String
  description : String
  technologies : List String
  architecture : String
  components : List ComponentSpec
  dataModels : List DataModelSpec
deriving DecidableEq

/-- Interface `ProjectFile` of types/index.ts. -/
structure ProjectFile where
  path : String
  content : String
deriving DecidableEq

/-- The dependencies record of a `ProjectStructure`; the two
`Record<string, string>` maps are modelled as association lists in
insertion order. -/
structure DepsMaps where
  dependencies : List (String × String)
  devDependencies : List (String × String)
deriving DecidableEq

/-- Interface `ProjectStructure` of types/index.ts. -/
structure ProjectStructure where
  directories : List String
  files : List ProjectFile
  dependencies : DepsMaps
deriving DecidableEq

/-- Interface `Documentation` of types/index.ts. -/
structure Documentation where
  readme : String
  additional : List ProjectFile
deriving DecidableEq

/-! ## Typed default fallbacks (services/llm/base.ts) -/

/-- Embeds `getDefaultProjectPlan` of services/llm/base.ts. -/
def getDefaultProjectPlan : ProjectPlan where
  projectName := "Generated Project"
  description := "A project generated with AI assistance"
  technologies := ["JavaScript", "React", "HTML", "CSS"]
  architecture := "Client-Side Application"
  components :=
    [{ name := "App"
       description := "Main application component"
       responsibilities := ["Manage application state", "Render UI components"] }]
  dataModels :=
    [{ name := "Item"
       fields :=
         [{ name := "id", type := "string", description := "Unique identifier" },
          { name := "title", type := "string", description := "Item title" }] }]

/-- The `package.json` content of the default structure; the source
builds it as `JSON.stringify(obj, null, 2)`, expanded here to the
resulting literal. -/
def defaultPackageJsonContent : String :=
  "\x7b\n  \"name\": \"generated-project\",\n  \"version\": \"0.1.0\",\n  \"private\": true,\n  \"dependencies\": \x7b\n    \"react\": \"^18.2.0\",\n    \"react-dom\": \"^18.2.0\",\n    \"react-scripts\": \"5.0.1\"\n  \x7d,\n  \"scripts\": \x7b\n    \"start\": \"react-scripts start\",\n    \"build\": \"react-scripts build\",\n    \"test\": \"react-scripts test\",\n    \"eject\": \"react-scripts eject\"\n  \x7d,\n  \"eslintConfig\": \x7b\n    \"extends\": [\n      \"react-app\"\n    ]\n  \x7d,\n  \"browserslist\": \x7b\n    \"production\": [\n      \">0.2%\",\n      \"not dead\",\n      \"not op_mini all\"\n    ],\n    \"development\": [\n      \"last 1 chrome version\",\n      \"last 1 firefox version\",\n      \"last 1 safari version\"\n    ]\n  \x7d\n\x7d"

/-- Embeds `getDefaultProjectStructure` of services/llm/base.ts. -/
def getDefaultProjectStructure : ProjectStructure where
  directories := ["src", "public", "src/components"]
  files :=
    [{ path := "README.md"
       content := "# Generated Project\n\nThis project was generated with AI assistance." },
     { path := "package.json", content := defaultPackageJsonContent },
     { path := "public/index.html"
       content := "<!DOCTYPE html>\n<html lang=\"en\">\n  <head>\n    <meta charset=\"utf-8\" />\n    <meta name=\"viewport\" content=\"width=device-width, initial-scale=1\" />\n    <title>Generated Project</title>\n  </head>\n  <body>\n    <noscript>You need to enable JavaScript to run this app.</noscript>\n    <div id=\"root\"></div>\n  </body>\n</html>" },
     { path := "src/index.js"
       content := "import React from \x27react\x27;\nimport ReactDOM from \x27react-dom/client\x27;\nimport App from \x27./App\x27;\n\nconst root = ReactDOM.createRoot(document.getElementById(\x27root\x27));\nroot.render(\n  <React.StrictMode>\n    <App />\n  </React.StrictMode>\n);" },
     { path := "src/App.js"
       content := "import React, \x7b useState \x7d from \x27react\x27;\n\nfunction App() \x7b\n  return (\n    <div className=\"App\">\n      <header className=\"App-header\">\n        <h1>Generated Project</h1>\n      </header>\n    </div>\n  );\n\x7d\n\nexport default App;" }]
  dependencies :=
    { dependencies :=
        [("react", "^18.2.0"), ("react-dom", "^18.2.0"), ("react-scripts", "5.0.1")]
      devDependencies := [] }

/-- Embeds `getDefaultDocumentation` of services/llm/base.ts. -/
def getDefaultDocumentation : Documentation where
  readme := "# Generated Project\n\n## Overview\nThis project was generated with AI assistance.\n\n## Installation\n\x60\x60\x60\nnpm install\n\x60\x60\x60\n\n## Usage\n\x60\x60\x60\nnpm start\n\x60\x60\x60"
  additional := []

/-! ## The recovery engine `parseJsonFromText` (services/llm/base.ts) -/

/-- Parsed JSON values (the possible results of `JSON.parse`). -/
inductive Json where
  | null
  | bool (b : Bool)
  | num (n : Int)
  | str (s : String)
  | arr (elems : List Json)
  | obj (members : List (String × Json))

/-- The value returned by `parseJsonFromText`: either a value obtained
from `JSON.parse`, or one of the typed default fallbacks. -/
inductive Recovered where
  | parsed (v : Json)
  | planFallback (p : ProjectPlan)
  | structureFallback (s : ProjectStructure)
  | docsFallback (d : Documentation)
  | issuesFallback (issues suggestions : List String)

/-- Starts-with test on character lists, used by the substring search. -/
def listStartsWith : List Char → List Char → Bool
  | _, [] => true
  | [], _ :: _ => false
  | a :: as, b :: bs => a == b && listStartsWith as bs

/-- Does `pat` occur as a contiguous run inside `hay`? -/
def hasSub (pat : List Char) : List Char → Bool
  | [] => listStartsWith [] pat
  | h :: t => listStartsWith (h :: t) pat || hasSub pat t

/-- JavaScript `s.includes(sub)`. -/
def jsIncludes (s sub : String) : Bool := hasSub sub.data s.data

/-- JavaScript `String.prototype.trim` (both ends, `\s` class). -/
def jsTrim (s : String) : String :=
  String.mk (((s.data.dropWhile jsWs).reverse.dropWhile jsWs).reverse)

/-- Index of the first occurrence of `c`, as `indexOf` (None for `-1`). -/
def firstIdxOf (cs : List Char) (c : Char) : Option Nat :=
  match cs with
  | [] => none
  | x :: xs => if x = c then some 0 else (firstIdxOf xs c).map (· + 1)

/-- The prefix-trim of `parseJsonFromText`: find the earlier of the
first `{` and the first `[` and, when its index is positive, drop
everything before it. -/
def jsonStartCut (cs : List Char) : List Char :=
  let startPos : Int :=
    match firstIdxOf cs lbrace, firstIdxOf cs '[' with
    | some b, some k => Int.ofNat (min b k)
    | some b, none => Int.ofNat b
    | none, some k => Int.ofNat k
    | none, none => -1
  if startPos > 0 then cs.drop startPos.toNat else cs

/-- The balanced-object scan: from the first `{`, walk tracking brace
depth; when the depth returns to zero the walked substring is the
candidate object (the source loop breaks there). -/
def scanBalanced : List Char → Int → List Char → Option (List Char)
  | [], _, _ => none
  | c :: rest, depth, acc =>
    if c = lbrace then scanBalanced rest (depth + 1) (acc ++ [c])
    else if c = rbrace then
      if depth = 1 then some (acc ++ [c])
      else scanBalanced rest (depth - 1) (acc ++ [c])
    else scanBalanced rest depth (acc ++ [c])

/-- The candidate substring found by the balanced-object scan. -/
def balancedScanStr (s : String) : Option String :=
  match firstIdxOf s.data lbrace with
  | none => none
  | some i => (scanBalanced (s.data.drop i) 0 []).map String.mk

/-- A caught `JSON.parse` call: `.ok` is a successful parse, `.error`
a thrown `SyntaxError` handled by the surrounding `try`. -/
def exceptToOption : Except Unit Json → Option Json
  | .ok v => some v
  | .error _ => none

/-- The fenced-code-block strategy: parse the extracted interior, then
the repaired interior.  `extract` is the platform regex
`/```(?:json)?\s*([\s\S]*?)\s*```/`, supplied as an oracle. -/
def codeBlockAttempt (jsonParse : String → Except Unit Json)
    (extract : String → Option String) (cleaned : String) : Option Json :=
  match extract cleaned with
  | some inner =>
    match exceptToOption (jsonParse inner) with
    | some v => some v
    | none => exceptToOption (jsonParse (attemptToFixJson inner))
  | none => none

/-- The ordered parsing strategies of `parseJsonFromText`, stopping at
the first success: direct parse of the trimmed/cut text, fenced code
block, whole-text repair, balanced-object scan. -/
def tryStrategies (jsonParse : String → Except Unit Json)
    (extract : String → Option String) (cleaned : String) : Option Json :=
  match exceptToOption (jsonParse cleaned) with
  | some v => some v
  | none =>
    match codeBlockAttempt jsonParse extract cleaned with
    | some v => some v
    | none =>
      match exceptToOption (jsonParse (attemptToFixJson cleaned)) with
      | some v => some v
      | none =>
        match balancedScanStr cleaned with
        | some obj =>
          match exceptToOption (jsonParse obj) with
          | some v => some v
          | none => exceptToOption (jsonParse (attemptToFixJson obj))
        | none => none

/-- The keyword-driven fallback selection at the end of
`parseJsonFromText`, applied to the original input text. -/
def chooseFallback (text : String) : Recovered :=
  if jsIncludes text "projectName" || jsIncludes text "description" then
    .planFallback getDefaultProjectPlan
  else if jsIncludes text "directories" || jsIncludes text "files" then
    .structureFallback getDefaultProjectStructure
  else if jsIncludes text "readme" then
    .docsFallback getDefaultDocumentation
  else if jsIncludes text "issues" || jsIncludes text "suggestions" then
    .issuesFallback [] []
  else
    .structureFallback getDefaultProjectStructure

/-- Embeds `BaseLLMService.parseJsonFromText`: trim, cut the non-JSON prefix,
run the parsing strategies in order, and fall back to a typed default
chosen from keywords of the original text. -/
def parseJsonFromText (jsonParse : String → Except Unit Json)
    (extract : String → Option String) (text : String) : Recovered :=
  match tryStrategies jsonParse extract (String.mk (jsonStartCut (jsTrim text).data)) with
  | some v => .parsed v
  | none => chooseFallback text

/-! ## The compiler invocation (core/compiler.ts) -/

/-- Interface `CompilationResult` of core/compiler.ts: `errors` and `output` are
optional fields. -/
structure CompilationResult where
  success : Bool
  errors : Option (List String)
  output : Option String
deriving DecidableEq

/-- The error object thrown by a failed `execAsync` call: `stderr` may
be absent, `message` is always present. -/
structure ExecError where
  stderr : Option String
  message : String
deriving DecidableEq

/-- JavaScript `e.stderr || e.message` (an absent or empty `stderr` is
falsy). -/
def stderrOrMessage (e : ExecError) : String :=
  match e.stderr with
  | some s => if s = "" then e.message else s
  | none => e.message

/-- The relevant content of a parsed `package.json`, as tested by
`compileProject`. -/
structure PackageJson where
  hasBuildScript : Bool
  hasDependencies : Bool
  hasReact : Bool
  hasTsDevDep : Bool
deriving DecidableEq

/-- Outcomes of the external process calls made by `compileProject`:
`packageJson` is `none` when `cat package.json` fails or its output is
not valid JSON; `npmBuild` and `tsc` are the build commands; the
`tsconfig.json` probe only matters through its success flag. -/
structure CompileEnv where
  packageJson : Option PackageJson
  npmBuild : Except ExecError String
  hasTsconfig : Bool
  tsc : Except ExecError String

/-- The `tsc` fallback path of `compileProject` (no usable
`package.json` build script). -/
def compileViaTsc (env : CompileEnv) : CompilationResult :=
  if !env.hasTsconfig then
    { success := true, errors := none, output := some "JavaScript project, no compilation needed" }
  else
    match env.tsc with
    | .ok out => { success := true, errors := none, output := some out }
    | .error e => { success := false, errors := some [stderrOrMessage e], output := none }

/-- Embeds `compileProject` of core/compiler.ts, as a function of the external
process outcomes. -/
def compileProject (env : CompileEnv) : CompilationResult :=
  match env.packageJson with
  | some pj =>
    if pj.hasBuildScript then
      match env.npmBuild with
      | .ok out => { success := true, errors := none, output := some out }
      | .error e => { success := false, errors := some [stderrOrMessage e], output := none }
    else if pj.hasDependencies && (pj.hasReact || !pj.hasTsDevDep) then
      { success := true, errors := none, output := some "JavaScript project, no compilation needed" }
    else compileViaTsc env
  | none => compileViaTsc env

/-! ## The COMPILE/FIX_RETRY task (core/projectGenerator.ts) -/

/-- The skip test of the compile task:
`!errors || errors.length === 0 || (errors[0] && errors[0].length > 5000)`. -/
def shouldSkipFix (errors : Option (List String)) : Bool :=
  match errors with
  | none => true
  | some es =>
    es.length == 0 ||
    (match es.head? with
     | some e => !(e == "") && decide (e.length > 5000)
     | none => false)

/-- The skip test as the specification words it: the payload is absent,
empty, or some single error message exceeds the 5000-character ceiling. -/
def shouldSkipFixSpec (errors : Option (List String)) : Bool :=
  match errors with
  | none => true
  | some es => es.isEmpty || es.any (fun e => decide (e.length > 5000))

/-- Outcome of the provider fix call `llmService.fixCompilationErrors`:
either it throws, or it returns `undefined`/`null` (`returned none`) or
a file list. -/
inductive FixOutcome where
  | threw
  | returned (files : Option (List ProjectFile))
deriving DecidableEq

/-- What one run of the compile task did: the task's result message,
how many provider fix calls were made, and how many recompiles ran. -/
structure CompileTaskTrace where
  message : String
  fixCalls : Nat
  recompiles : Nat
deriving DecidableEq

/-- The "Compiling project" task of `generateProject`: an `.ok` result
means the task returned normally (the pipeline proceeds to the
documentation stage); `.error` would be an exception aborting the
pipeline.  `first` is the first `compileProject` result, `fix` the
provider fix call outcome, `second` the recompilation result. -/
def compileTask (first : CompilationResult) (fix : FixOutcome)
    (second : CompilationResult) : Except String CompileTaskTrace :=
  if first.success then
    .ok { message := "Project compiled successfully", fixCalls := 0, recompiles := 0 }
  else if shouldSkipFix first.errors then
    .ok { message := "Skipping compilation - JavaScript project or complex build setup"
          fixCalls := 0, recompiles := 0 }
  else
    match fix with
    | .threw =>
      .ok { message := "Completed with compilation warnings", fixCalls := 1, recompiles := 0 }
    | .returned none =>
      .ok { message := "Completed with compilation warnings", fixCalls := 1, recompiles := 0 }
    | .returned (some files) =>
      if files.isEmpty then
        .ok { message := "Completed with compilation warnings", fixCalls := 1, recompiles := 0 }
      else if second.success then
        .ok { message := "Fixed compilation errors and compiled successfully"
              fixCalls := 1, recompiles := 1 }
      else
        .ok { message := "Completed with compilation warnings", fixCalls := 1, recompiles := 1 }

/-! ## The structure reconciler (core/projectGenerator.ts) -/

/-- JavaScript `Array.from(new Set(l))`: keep the first occurrence of every
element, in order; `seen` is the set built so far. -/
def setDedup (seen : List String) : List String → List String
  | [] => []
  | x :: xs => if x ∈ seen then setDedup seen xs else x :: setDedup (x :: seen) xs

/-- The JavaScript object spread `{...a, ...b}` on string maps: `a`'s
keys in order with values overridden by `b` on collision, then `b`'s
new keys in order. -/
def objSpread (a b : List (String × String)) : List (String × String) :=
  a.map (fun p =>
    match b.find? (fun q => q.1 == p.1) with
    | some q => (p.1, q.2)
    | none => p) ++
  b.filter (fun q => (a.find? (fun p => p.1 == q.1)).isNone)

/-- Embeds `mergeProjectStructures` of core/projectGenerator.ts. -/
def mergeProjectStructures (existing newStructure : ProjectStructure) : ProjectStructure :=
  let newFilePaths := newStructure.files.map (fun f => f.path)
  let unchangedFiles := existing.files.filter (fun f => !(newFilePaths.contains f.path))
  { directories := setDedup [] (existing.directories ++ newStructure.directories)
    files := unchangedFiles ++ newStructure.files
    dependencies :=
      { dependencies :=
          objSpread existing.dependencies.dependencies newStructure.dependencies.dependencies
        devDependencies :=
          objSpread existing.dependencies.devDependencies newStructure.dependencies.devDependencies } }

/-- The empty project structure (no directories, no files, empty
dependency maps). -/
def emptyProjectStructure : ProjectStructure where
  directories := []
  files := []
  dependencies := { dependencies := [], devDependencies := [] }

/-- Content of the first file with the given path, if any. -/
def lookupContent (files : List ProjectFile) (p : String) : Option String :=
  (files.find? (fun f => f.path == p)).map (fun f => f.content)

/-- First-occurrence deduplication, written directly as the
specification describes it: keep the head, drop its later duplicates,
recurse. -/
def dedupKeepFirst : List String → List String
  | [] => []
  | x :: xs => x :: dedupKeepFirst (xs.filter (fun y => !(y == x)))
termination_by l => l.length
decreasing_by
  simp only [List.length_cons]
  exact Nat.lt_succ_of_le (List.length_filter_le _ _)

/-- Concrete existing structure used by the merge witnesses. -/
def mergeWitnessExisting : ProjectStructure where
  directories := ["src"]
  files := [{ path := "a.ts", content := "old a" }, { path := "b.ts", content := "old b" }]
  dependencies := { dependencies := [("left", "1.0.0")], devDependencies := [] }

/-- Concrete fresh structure for the same witness. -/
def mergeWitnessFresh : ProjectStructure where
  directories := ["src", "docs"]
  files := [{ path := "b.ts", content := "new b" }, { path := "c.ts", content := "new c" }]
  dependencies := { dependencies := [("right", "2.0.0")], devDependencies := [] }

/-- First compilation result used by the C3 witness. -/
def c3WitnessFirst : CompilationResult where
  success := false
  errors := some ["boom"]
  output := none

/-- Second compilation result used by the compile-task witnesses. -/
def c3WitnessSecond : CompilationResult where
  success := true
  errors := none
  output := none

/-- An error message longer than the 5000-character ceiling. -/
def longError : String := String.mk (List.replicate 5001 'x')

/-! ## Helper lemmas about the reconciler -/

theorem not_contains_iff (l : List String) (x : String) :
    (!(l.contains x)) = true ↔ x ∉ l := by
  simp [List.contains, List.elem_iff]

theorem setDedup_eq_self (l : List String) : ∀ seen : List String,
    l.Nodup → (∀ x ∈ l, x ∉ seen) → setDedup seen l = l := by
  induction l with
  | nil => intro seen _ _; rfl
  | cons x xs ih =>
    intro seen hnd hdisj
    rw [setDedup, if_neg (hdisj x (List.mem_cons_self x xs))]
    congr 1
    refine ih (x :: seen) (List.Nodup.of_cons hnd) ?_
    intro y hy hmem
    rcases List.mem_cons.mp hmem with h1 | h2
    · exact (List.nodup_cons.mp hnd).1 (h1 ▸ hy)
    · exact hdisj y (List.mem_cons_of_mem x hy) h2

theorem dedupKeepFirst_nil : dedupKeepFirst [] = [] := by
  rw [dedupKeepFirst.eq_def]

theorem dedupKeepFirst_cons (x : String) (xs : List String) :
    dedupKeepFirst (x :: xs) = x :: dedupKeepFirst (xs.filter (fun y => !(y == x))) := by
  rw [dedupKeepFirst.eq_def]

theorem setDedup_eq_dedupKeepFirst (l : List String) : ∀ seen : List String,
    setDedup seen l = dedupKeepFirst (l.filter (fun y => decide (y ∉ seen))) := by
  induction l with
  | nil => intro seen; simp [setDedup, dedupKeepFirst_nil]
  | cons x xs ih =>
    intro seen
    by_cases hx : x ∈ seen
    · rw [setDedup, if_pos hx, List.filter_cons]
      simp only [hx, not_true_eq_false, decide_False, if_false]
      exact ih seen
    · rw [setDedup, if_neg hx, List.filter_cons]
      simp only [hx, not_false_eq_true, decide_True, if_true]
      rw [dedupKeepFirst_cons, List.filter_filter]
      congr 1
      rw [ih (x :: seen)]
      congr 1
      apply List.filter_congr
      intro y _
      by_cases hyx : y = x
      · simp [hyx]
      · by_cases hys : y ∈ seen <;> simp [hyx, hys]

theorem objSpread_nil_right (a : List (String × String)) : objSpread a [] = a := by
  simp [objSpread]

theorem objSpread_nil_left (b : List (String × String)) : objSpread [] b = b := by
  simp [objSpread]

theorem merge_empty_right (e : ProjectStructure) (he : e.directories.Nodup) :
    mergeProjectStructures e emptyProjectStructure = e := by
  obtain ⟨dirs, files, deps, devDeps⟩ := e
  simp only [mergeProjectStructures, emptyProjectStructure,
    ProjectStructure.mk.injEq, DepsMaps.mk.injEq] at *
  refine ⟨?_, ?_, ?_, ?_⟩
  · rw [List.append_nil]
    exact setDedup_eq_self dirs [] he (fun x _ hx => (List.not_mem_nil x) hx)
  · rw [List.append_nil]
    exact List.filter_eq_self.mpr (fun a _ => rfl)
  · exact objSpread_nil_right deps
  · exact objSpread_nil_right devDeps

theorem merge_empty_left (f : ProjectStructure) (hf : f.directories.Nodup) :
    mergeProjectStructures emptyProjectStructure f = f := by
  obtain ⟨dirs, files, deps, devDeps⟩ := f
  simp only [mergeProjectStructures, emptyProjectStructure,
    ProjectStructure.mk.injEq, DepsMaps.mk.injEq] at *
  refine ⟨?_, ?_, ?_, ?_⟩
  · rw [List.nil_append]
    exact setDedup_eq_self dirs [] hf (fun x _ hx => (List.not_mem_nil x) hx)
  · rfl
  · exact objSpread_nil_left deps
  · exact objSpread_nil_left devDeps

theorem find?_filter_of_matches {α : Type _} (l : List α) (m q : α → Bool)
    (h : ∀ x ∈ l, m x = true → q x = true) :
    (l.filter q).find? m = l.find? m := by
  induction l with
  | nil => rfl
  | cons x xs ih =>
    rw [List.filter_cons]
    by_cases hq : q x = true
    · rw [if_pos hq]
      by_cases hm : m x = true
      · rw [List.find?_cons_of_pos _ hm, List.find?_cons_of_pos _ hm]
      · rw [List.find?_cons_of_neg _ (by simpa using hm),
            List.find?_cons_of_neg _ (by simpa using hm)]
        exact ih (fun y hy => h y (List.mem_cons_of_mem x hy))
    · rw [if_neg hq]
      have hm : ¬ m x = true := fun hmx => hq (h x (List.mem_cons_self x xs) hmx)
      rw [List.find?_cons_of_neg _ (by simpa using hm)]
      exact ih (fun y hy => h y (List.mem_cons_of_mem x hy))

/-! ## Claim theorems for the structure reconciler -/

/-- C2: when both inputs have duplicate-free file paths,
`mergeProjectStructures` produces a duplicate-free file list; every path
present in `fresh` resolves to `fresh`'s content, and every path present
only in `existing` is carried over with unchanged content. -/
theorem mergeProjectStructures_files_spec (e f : ProjectStructure)
    (he : (e.files.map (fun fl => fl.path)).Nodup)
    (hf : (f.files.map (fun fl => fl.path)).Nodup) :
    ((mergeProjectStructures e f).files.map (fun fl => fl.path)).Nodup ∧
    (∀ p, p ∈ f.files.map (fun fl => fl.path) →
      lookupContent (mergeProjectStructures e f).files p = lookupContent f.files p) ∧
    (∀ p, p ∈ e.files.map (fun fl => fl.path) → p ∉ f.files.map (fun fl => fl.path) →
      lookupContent (mergeProjectStructures e f).files p = lookupContent e.files p) := by
  have hfiles : (mergeProjectStructures e f).files =
      e.files.filter (fun fl => !((f.files.map (fun g => g.path)).contains fl.path)) ++ f.files := rfl
  set P := f.files.map (fun g => g.path) with hP
  set unchanged := e.files.filter (fun fl => !(P.contains fl.path)) with hU
  have hUpath : ∀ x ∈ unchanged, x.path ∉ P := by
    intro x hx
    have := (List.mem_filter.mp hx).2
    exact (not_contains_iff P x.path).mp this
  refine ⟨?_, ?_, ?_⟩
  · rw [hfiles, List.map_append]
    refine List.Nodup.append ?_ hf ?_
    · exact List.Nodup.sublist (List.Sublist.map _ (List.filter_sublist e.files)) he
    · rw [List.disjoint_left]
      intro a ha
      obtain ⟨x, hx, rfl⟩ := List.mem_map.mp ha
      exact hUpath x hx
  · intro p hp
    rw [hfiles]
    unfold lookupContent
    rw [List.find?_append]
    have hnone : unchanged.find? (fun fl => fl.path == p) = none := by
      rw [List.find?_eq_none]
      intro x hx hbeq
      exact hUpath x hx (beq_iff_eq.mp hbeq ▸ hp)
    rw [hnone, Option.none_or]
  · intro p hpe hpf
    rw [hfiles]
    unfold lookupContent
    rw [List.find?_append]
    have h1 : unchanged.find? (fun fl => fl.path == p) = e.files.find? (fun fl => fl.path == p) := by
      apply find?_filter_of_matches
      intro x _ hbeq
      apply (not_contains_iff P x.path).mpr
      rw [beq_iff_eq.mp hbeq]
      exact hpf
    have h2 : f.files.find? (fun fl => fl.path == p) = none := by
      rw [List.find?_eq_none]
      intro x hx hbeq
      exact hpf (List.mem_map.mpr ⟨x, hx, beq_iff_eq.mp hbeq⟩)
    rw [h1, h2, Option.or_none]

/-- Witness for C2 at concrete inputs. -/
theorem mergeProjectStructures_files_spec_witness :
    ((mergeWitnessExisting.files.map (fun fl => fl.path)).Nodup ∧
     (mergeWitnessFresh.files.map (fun fl => fl.path)).Nodup) ∧
    (((mergeProjectStructures mergeWitnessExisting mergeWitnessFresh).files.map
        (fun fl => fl.path)).Nodup ∧
     (∀ p, p ∈ mergeWitnessFresh.files.map (fun fl => fl.path) →
       lookupContent (mergeProjectStructures mergeWitnessExisting mergeWitnessFresh).files p =
         lookupContent mergeWitnessFresh.files p) ∧
     (∀ p, p ∈ mergeWitnessExisting.files.map (fun fl => fl.path) →
       p ∉ mergeWitnessFresh.files.map (fun fl => fl.path) →
       lookupContent (mergeProjectStructures mergeWitnessExisting mergeWitnessFresh).files p =
         lookupContent mergeWitnessExisting.files p)) :=
  ⟨⟨by decide, by decide⟩,
   mergeProjectStructures_files_spec mergeWitnessExisting mergeWitnessFresh
     (by decide) (by decide)⟩

/-- C4 fails as stated: a duplicate entry inside `existing.directories`
is collapsed by the `new Set` deduplication, so merging with the empty
structure does not return `existing` unchanged. -/
theorem mergeProjectStructures_identity_counterexample :
    mergeProjectStructures
        { directories := ["src", "src"], files := [],
          dependencies := { dependencies := [], devDependencies := [] } }
        emptyProjectStructure ≠
      { directories := ["src", "src"], files := [],
        dependencies := { dependencies := [], devDependencies := [] } } := by
  decide

/-- C4 (amended): when the non-empty side's directory list has no
duplicates, merging with the empty structure is the identity on
directories, files and both dependency maps. -/
theorem mergeProjectStructures_empty_identity (e f : ProjectStructure)
    (he : e.directories.Nodup) (hf : f.directories.Nodup) :
    mergeProjectStructures e emptyProjectStructure = e ∧
    mergeProjectStructures emptyProjectStructure f = f :=
  ⟨merge_empty_right e he, merge_empty_left f hf⟩

/-- Witness for the amended C4 at concrete inputs. -/
theorem mergeProjectStructures_empty_identity_witness :
    (mergeWitnessExisting.directories.Nodup ∧ mergeWitnessFresh.directories.Nodup) ∧
    (mergeProjectStructures mergeWitnessExisting emptyProjectStructure = mergeWitnessExisting ∧
     mergeProjectStructures emptyProjectStructure mergeWitnessFresh = mergeWitnessFresh) :=
  ⟨⟨by decide, by decide⟩,
   mergeProjectStructures_empty_identity mergeWitnessExisting mergeWitnessFresh
     (by decide) (by decide)⟩

/-- C10: the merged file list is exactly `existing`'s files whose paths
do not occur in `fresh`, in order, followed by `fresh`'s files in order;
the merged directories are the concatenation of the two directory lists
with every duplicate after the first occurrence removed. -/
theorem mergeProjectStructures_deterministic_order (e f : ProjectStructure) :
    (mergeProjectStructures e f).files =
      e.files.filter (fun fl => decide (fl.path ∉ f.files.map (fun g => g.path))) ++ f.files ∧
    (mergeProjectStructures e f).directories =
      dedupKeepFirst (e.directories ++ f.directories) := by
  constructor
  · show e.files.filter (fun fl => !((f.files.map (fun g => g.path)).contains fl.path)) ++ f.files = _
    congr 1
    apply List.filter_congr
    intro x _
    by_cases h : x.path ∈ f.files.map (fun g => g.path)
    · simp only [h, not_true_eq_false, decide_False]
      have hc : (f.files.map (fun g => g.path)).contains x.path = true := List.elem_iff.mpr h
      rw [hc]
      rfl
    · simp only [h, not_false_eq_true, decide_True]
      exact (not_contains_iff _ x.path).mpr h
  · show setDedup [] (e.directories ++ f.directories) = _
    rw [setDedup_eq_dedupKeepFirst]
    congr 1
    exact List.filter_eq_self.mpr (fun a _ => by simp)

/-! ## Claim theorems for the compiler and the compile task -/

theorem shouldSkipFix_iff (errors : Option (List String)) :
    shouldSkipFix errors = true ↔
      (errors = none ∨ errors = some [] ∨
       ∃ e es, errors = some (e :: es) ∧ e ≠ "" ∧ e.length > 5000) := by
  rcases errors with _ | es
  · simp [shouldSkipFix]
  · rcases es with _ | ⟨e, rest⟩
    · simp [shouldSkipFix]
    · have hL : shouldSkipFix (some (e :: rest)) = (!(e == "") && decide (e.length > 5000)) := by
        simp [shouldSkipFix]
      rw [hL]
      constructor
      · intro h
        obtain ⟨h1, h2⟩ := Bool.and_eq_true_iff.mp h
        right; right
        exact ⟨e, rest, rfl, by simpa using h1, of_decide_eq_true h2⟩
      · rintro (h | h | ⟨e', es', heq, hne, hlen⟩)
        · exact Option.noConfusion h
        · simp at h
        · have he' : e = e' := (List.cons.inj (Option.some.inj heq)).1
          subst he'
          exact Bool.and_eq_true_iff.mpr ⟨by simpa using hne, decide_eq_true hlen⟩

/-- C9: every run of `compileProject` yields a result in which `errors`
is absent exactly on success, and a failure always carries a one-element
(hence non-empty) error list. -/
theorem compileProject_errors_iff_failure (env : CompileEnv) :
    ((compileProject env).success = true ∧ (compileProject env).errors = none) ∨
    ((compileProject env).success = false ∧ ∃ e, (compileProject env).errors = some [e]) := by
  have htsc : ((compileViaTsc env).success = true ∧ (compileViaTsc env).errors = none) ∨
      ((compileViaTsc env).success = false ∧ ∃ e, (compileViaTsc env).errors = some [e]) := by
    unfold compileViaTsc
    cases h : env.hasTsconfig
    · left; simp [h]
    · rcases he : env.tsc with e | out
      · right; simp [h, he]
      · left; simp [h, he]
  unfold compileProject
  rcases hpj : env.packageJson with _ | pj
  · exact htsc
  · cases hb : pj.hasBuildScript
    · cases hjs : pj.hasDependencies && (pj.hasReact || !pj.hasTsDevDep)
      · simpa [hb, hjs] using htsc
      · left; simp [hb, hjs]
    · rcases hn : env.npmBuild with e | out
      · right; simp [hb, hn]
      · left; simp [hb, hn]

/-- C3 fails as stated: with a short first message and an over-ceiling
second message, the specification's "any single error message exceeds
the ceiling" condition says the fix step is skipped, but the code only
tests `errors[0]` and enters the fix attempt (one fix call is made). -/
theorem compileTask_skip_counterexample :
    shouldSkipFixSpec (some ["short", longError]) = true ∧
    shouldSkipFix (some ["short", longError]) = false ∧
    compileTask { success := false, errors := some ["short", longError], output := none }
        (.returned none) c3WitnessSecond =
      .ok { message := "Completed with compilation warnings", fixCalls := 1, recompiles := 0 } := by
  have hlen : longError.length = 5001 := by
    rw [longError]
    show (List.replicate 5001 'x').length = 5001
    exact List.length_replicate 5001 'x'
  refine ⟨?_, ?_, ?_⟩
  · have h1 : decide (longError.length > 5000) = true := by
      rw [hlen]; decide
    have h2 : decide (("short" : String).length > 5000) = false := by decide
    simp only [shouldSkipFixSpec, List.any_cons, List.any_nil, h1, h2,
      Bool.true_or, Bool.or_true, Bool.or_false, Bool.false_or]
  · rfl
  · rfl

/-- C3 (amended): in a failed COMPILE stage the fix step is skipped
(proceeding to DOCUMENT) exactly when the error payload is absent,
empty, or its *first* message is non-empty and exceeds the
5000-character ceiling; otherwise the fix attempt is entered. -/
theorem compileTask_skip_iff (first : CompilationResult) (fix : FixOutcome)
    (second : CompilationResult) (hfail : first.success = false) :
    ∃ tr, compileTask first fix second = .ok tr ∧
      (tr.fixCalls = 0 ↔
        (first.errors = none ∨ first.errors = some [] ∨
         ∃ e es, first.errors = some (e :: es) ∧ e ≠ "" ∧ e.length > 5000)) := by
  by_cases hskip : shouldSkipFix first.errors = true
  · refine ⟨⟨"Skipping compilation - JavaScript project or complex build setup", 0, 0⟩, ?_, ?_⟩
    · simp [compileTask, hfail, hskip]
    · exact iff_of_true rfl ((shouldSkipFix_iff first.errors).mp hskip)
  · have hskip' : shouldSkipFix first.errors = false := by simpa using hskip
    have hcond : ¬ (first.errors = none ∨ first.errors = some [] ∨
        ∃ e es, first.errors = some (e :: es) ∧ e ≠ "" ∧ e.length > 5000) :=
      fun hc => hskip ((shouldSkipFix_iff first.errors).mpr hc)
    rcases fix with _ | files
    · exact ⟨⟨"Completed with compilation warnings", 1, 0⟩,
        by simp [compileTask, hfail, hskip'], iff_of_false (by simp) hcond⟩
    · rcases files with _ | fs
      · exact ⟨⟨"Completed with compilation warnings", 1, 0⟩,
          by simp [compileTask, hfail, hskip'], iff_of_false (by simp) hcond⟩
      · cases hemp : fs.isEmpty
        · cases hsec : second.success
          · exact ⟨⟨"Completed with compilation warnings", 1, 1⟩,
              by simp [compileTask, hfail, hskip', hemp, hsec], iff_of_false (by simp) hcond⟩
          · exact ⟨⟨"Fixed compilation errors and compiled successfully", 1, 1⟩,
              by simp [compileTask, hfail, hskip', hemp, hsec], iff_of_false (by simp) hcond⟩
        · exact ⟨⟨"Completed with compilation warnings", 1, 0⟩,
            by simp [compileTask, hfail, hskip', hemp], iff_of_false (by simp) hcond⟩

/-- Witness for the amended C3 at concrete inputs. -/
theorem compileTask_skip_iff_witness :
    c3WitnessFirst.success = false ∧
    ∃ tr, compileTask c3WitnessFirst (.returned none) c3WitnessSecond = .ok tr ∧
      (tr.fixCalls = 0 ↔
        (c3WitnessFirst.errors = none ∨ c3WitnessFirst.errors = some [] ∨
         ∃ e es, c3WitnessFirst.errors = some (e :: es) ∧ e ≠ "" ∧ e.length > 5000)) :=
  ⟨rfl, compileTask_skip_iff c3WitnessFirst (.returned none) c3WitnessSecond rfl⟩

/-- C5: the compile task never aborts the pipeline (it always returns a
normal result, so execution proceeds to the DOCUMENT stage), makes at
most one provider fix call and at most one recompile, and recompiles
exactly when a failed compilation with a fixable payload got a
non-empty list of fixed files back. -/
theorem compileTask_never_aborts (first : CompilationResult) (fix : FixOutcome)
    (second : CompilationResult) :
    ∃ tr, compileTask first fix second = .ok tr ∧
      tr.fixCalls ≤ 1 ∧ tr.recompiles ≤ tr.fixCalls ∧
      (tr.recompiles = 1 ↔
        (first.success = false ∧ shouldSkipFix first.errors = false ∧
         ∃ fs, fix = FixOutcome.returned (some fs) ∧ fs.isEmpty = false)) := by
  cases hsucc : first.success
  · by_cases hskip : shouldSkipFix first.errors = true
    · refine ⟨⟨"Skipping compilation - JavaScript project or complex build setup", 0, 0⟩, ?_, ?_, ?_, ?_⟩
      · simp [compileTask, hsucc, hskip]
      · decide
      · decide
      · exact iff_of_false (by decide) (fun hc => by simp [hskip] at hc)
    · have hskip' : shouldSkipFix first.errors = false := by simpa using hskip
      rcases fix with _ | files
      · refine ⟨⟨"Completed with compilation warnings", 1, 0⟩, ?_, ?_, ?_, ?_⟩
        · simp [compileTask, hsucc, hskip']
        · decide
        · decide
        · refine iff_of_false (by decide) (fun hc => ?_)
          obtain ⟨_, _, fs, hfs, _⟩ := hc
          exact FixOutcome.noConfusion hfs
      · rcases files with _ | fs
        · refine ⟨⟨"Completed with compilation warnings", 1, 0⟩, ?_, ?_, ?_, ?_⟩
          · simp [compileTask, hsucc, hskip']
          · decide
          · decide
          · refine iff_of_false (by decide) (fun hc => ?_)
            obtain ⟨_, _, fs, hfs, _⟩ := hc
            simp at hfs
        · cases hemp : fs.isEmpty
          · cases hsec : second.success
            · refine ⟨⟨"Completed with compilation warnings", 1, 1⟩, ?_, ?_, ?_, ?_⟩
              · simp [compileTask, hsucc, hskip', hemp, hsec]
              · decide
              · decide
              · exact iff_of_true rfl ⟨rfl, hskip', fs, rfl, hemp⟩
            · refine ⟨⟨"Fixed compilation errors and compiled successfully", 1, 1⟩, ?_, ?_, ?_, ?_⟩
              · simp [compileTask, hsucc, hskip', hemp, hsec]
              · decide
              · decide
              · exact iff_of_true rfl ⟨rfl, hskip', fs, rfl, hemp⟩
          · refine ⟨⟨"Completed with compilation warnings", 1, 0⟩, ?_, ?_, ?_, ?_⟩
            · simp [compileTask, hsucc, hskip', hemp]
            · decide
            · decide
            · refine iff_of_false (by decide) (fun hc => ?_)
              obtain ⟨_, _, fs', hfs, hne⟩ := hc
              have heq : fs = fs' := by simpa using hfs
              rw [← heq, hemp] at hne
              exact Bool.noConfusion hne
  · refine ⟨⟨"Project compiled successfully", 0, 0⟩, ?_, ?_, ?_, ?_⟩
    · simp [compileTask, hsucc]
    · decide
    · decide
    · exact iff_of_false (by decide) (fun hc => Bool.noConfusion hc.1)

/-! ## Claim theorems for the repair transform -/

theorem stripExcess_count_other (c d : Char) (hdc : d ≠ c) :
    ∀ (n : Nat) (s : List Char), (stripExcess c n s).count d = s.count d := by
  intro n
  induction n with
  | zero => intro s; rfl
  | succ n ih =>
    intro s
    rcases hl : s.getLast? with _ | e
    · have hse : stripExcess c (n + 1) s = s := by rw [stripExcess, hl]
      rw [hse]
    · have hse : stripExcess c (n + 1) s =
          if e = c then stripExcess c n s.dropLast else s := by
        rw [stripExcess, hl]
      rw [hse]
      by_cases hec : e = c
      · rw [if_pos hec, ih]
        have hs : s.dropLast ++ [e] = s := List.dropLast_append_getLast? e hl
        conv_rhs => rw [← hs]
        rw [List.count_append]
        simp [List.count_singleton', hec, hdc]
      · rw [if_neg hec]

theorem stripExcess_count_self (c : Char) :
    ∀ (n : Nat) (s : List Char), (stripExcess c n s).count c ≤ s.count c ∧
      s.count c ≤ (stripExcess c n s).count c + n := by
  intro n
  induction n with
  | zero => intro s; exact ⟨Nat.le_refl _, Nat.le_add_right _ 0⟩
  | succ n ih =>
    intro s
    rcases hl : s.getLast? with _ | e
    · have hse : stripExcess c (n + 1) s = s := by rw [stripExcess, hl]
      rw [hse]
      exact ⟨Nat.le_refl _, Nat.le_add_right _ _⟩
    · have hse : stripExcess c (n + 1) s =
          if e = c then stripExcess c n s.dropLast else s := by
        rw [stripExcess, hl]
      rw [hse]
      by_cases hec : e = c
      · rw [if_pos hec]
        have hs : s.dropLast ++ [e] = s := List.dropLast_append_getLast? e hl
        have hcount : s.count c = s.dropLast.count c + 1 := by
          conv_lhs => rw [← hs]
          rw [List.count_append]
          simp [List.count_singleton', hec]
        obtain ⟨h1, h2⟩ := ih s.dropLast
        omega
      · rw [if_neg hec]
        exact ⟨Nat.le_refl _, Nat.le_add_right _ _⟩

theorem balanceFix_closers_dominate (s : List Char) :
    (balanceFix s).count lbrace ≤ (balanceFix s).count rbrace ∧
    (balanceFix s).count '[' ≤ (balanceFix s).count ']' := by
  have hne1 : lbrace ≠ rbrace := by decide
  have hne2 : lbrace ≠ ']' := by decide
  have hne3 : ('[' : Char) ≠ rbrace := by decide
  have hne4 : ('[' : Char) ≠ ']' := by decide
  have hne5 : rbrace ≠ ']' := by decide
  have hne6 : (']' : Char) ≠ rbrace := by decide
  set bo := s.count lbrace with hbo
  set bc := s.count rbrace with hbc
  set ko := s.count '[' with hko
  set kc := s.count ']' with hkc
  set s2 := (s ++ List.replicate (bo - bc) rbrace) ++ List.replicate (ko - kc) ']' with hs2
  set s3 := stripExcess rbrace (bc - bo) s2 with hs3
  have hbf : balanceFix s = stripExcess ']' (kc - ko) s3 := rfl
  have c1 : s2.count lbrace = bo := by
    rw [hs2, List.count_append, List.count_append, List.count_replicate, List.count_replicate]
    simp [hne1.symm, hne2.symm, beq_iff_eq]
  have c2 : s2.count rbrace = bc + (bo - bc) := by
    rw [hs2, List.count_append, List.count_append, List.count_replicate, List.count_replicate]
    simp [hne6, beq_iff_eq]
  have c3 : s2.count '[' = ko := by
    rw [hs2, List.count_append, List.count_append, List.count_replicate, List.count_replicate]
    simp [hne3.symm, hne4.symm, beq_iff_eq]
  have c4 : s2.count ']' = kc + (ko - kc) := by
    rw [hs2, List.count_append, List.count_append, List.count_replicate, List.count_replicate]
    simp [hne5, beq_iff_eq]
  have d1 : s3.count lbrace = s2.count lbrace := stripExcess_count_other rbrace lbrace hne1 _ _
  have d2 : s3.count '[' = s2.count '[' := stripExcess_count_other rbrace '[' hne3 _ _
  have d3 : s3.count ']' = s2.count ']' := stripExcess_count_other rbrace ']' hne6 _ _
  obtain ⟨d4, d5⟩ := stripExcess_count_self rbrace (bc - bo) s2
  rw [← hs3] at d4 d5
  have e1 : (balanceFix s).count lbrace = s3.count lbrace := by
    rw [hbf]; exact stripExcess_count_other ']' lbrace hne2 _ _
  have e2 : (balanceFix s).count rbrace = s3.count rbrace := by
    rw [hbf]; exact stripExcess_count_other ']' rbrace hne5 _ _
  have e3 : (balanceFix s).count '[' = s3.count '[' := by
    rw [hbf]; exact stripExcess_count_other ']' '[' hne4 _ _
  obtain ⟨e4, e5⟩ := stripExcess_count_self ']' (kc - ko) s3
  rw [← hbf] at e4 e5
  omega

/-- C8 fails as stated: on input `{]` the repair transform appends the
missing `}` but cannot strip the excess `]` (it is no longer at the end
of the string), so the output `{]}` has zero `[` but one `]`. -/
theorem attemptToFixJson_balance_counterexample :
    attemptToFixJson "\x7b]" = "\x7b]\x7d" ∧
    ¬ ((attemptToFixJson "\x7b]").data.count '[' = (attemptToFixJson "\x7b]").data.count ']') := by
  constructor
  · decide
  · decide

/-- C8 (amended): for every input the repair transform's output has at
least as many `}` as `{` and at least as many `]` as `[`: missing
closers are always appended, but excess closers are stripped only while
they sit at the very end of the string, so the counts need not be
equal. -/
theorem attemptToFixJson_closers_dominate (t : String) :
    (attemptToFixJson t).data.count lbrace ≤ (attemptToFixJson t).data.count rbrace ∧
    (attemptToFixJson t).data.count '[' ≤ (attemptToFixJson t).data.count ']' := by
  have hdata : attemptToFixJson t = String.mk (balanceFix (repairedBeforeBalance t)) := by
    unfold attemptToFixJson
    exact rfl
  have hmk : ∀ l : List Char, (String.mk l).data = l := fun l => rfl
  rw [hdata, hmk]
  exact balanceFix_closers_dominate (repairedBeforeBalance t)

/-- C7 fails as stated: the trailing-comma regex removes only one comma
of `,,}` per pass, so a second application of the repair transform
changes the output of the first. -/
theorem attemptToFixJson_not_idempotent :
    attemptToFixJson (attemptToFixJson "\x7b,,\x7d") ≠ attemptToFixJson "\x7b,,\x7d" := by
  decide

/-- C7 (amended): the repair transform is idempotent at its fixed
points (reapplying it to a string it leaves unchanged changes nothing),
but not on arbitrary inputs. -/
theorem attemptToFixJson_idem_on_fixed_points (t : String)
    (h : attemptToFixJson t = t) :
    attemptToFixJson (attemptToFixJson t) = attemptToFixJson t := by
  rw [h]
  exact h

/-- Witness for the amended C7 at a concrete fixed point. -/
theorem attemptToFixJson_idem_on_fixed_points_witness :
    attemptToFixJson "\x7b\x7d" = "\x7b\x7d" ∧
    attemptToFixJson (attemptToFixJson "\x7b\x7d") = attemptToFixJson "\x7b\x7d" :=
  ⟨by decide, attemptToFixJson_idem_on_fixed_points "\x7b\x7d" (by decide)⟩

/-! ## Claim theorems for the recovery engine -/

theorem exceptToOption_eq_some {x : Except Unit Json} {v : Json}
    (h : exceptToOption x = some v) : x = Except.ok v := by
  cases x with
  | ok w =>
    simp only [exceptToOption, Option.some.injEq] at h
    rw [h]
  | error e => simp [exceptToOption] at h

theorem codeBlockAttempt_parse_source (jsonParse : String → Except Unit Json)
    (extract : String → Option String) (c : String) (v : Json)
    (h : codeBlockAttempt jsonParse extract c = some v) :
    ∃ s, jsonParse s = Except.ok v := by
  unfold codeBlockAttempt at h
  split at h
  next inner hex =>
    split at h
    next v1 hp1 =>
      obtain rfl : v1 = v := Option.some.inj h
      exact ⟨inner, exceptToOption_eq_some hp1⟩
    next hp1 =>
      exact ⟨attemptToFixJson inner, exceptToOption_eq_some h⟩
  next hex => exact Option.noConfusion h

theorem tryStrategies_parse_source (jsonParse : String → Except Unit Json)
    (extract : String → Option String) (c : String) (v : Json)
    (h : tryStrategies jsonParse extract c = some v) :
    ∃ s, jsonParse s = Except.ok v := by
  unfold tryStrategies at h
  split at h
  next v1 h1 =>
    obtain rfl : v1 = v := Option.some.inj h
    exact ⟨c, exceptToOption_eq_some h1⟩
  next h1 =>
    split at h
    next v2 h2 =>
      obtain rfl : v2 = v := Option.some.inj h
      exact codeBlockAttempt_parse_source jsonParse extract c v2 h2
    next h2 =>
      split at h
      next v3 h3 =>
        obtain rfl : v3 = v := Option.some.inj h
        exact ⟨attemptToFixJson c, exceptToOption_eq_some h3⟩
      next h3 =>
        split at h
        next obj h4 =>
          split at h
          next v5 h5 =>
            obtain rfl : v5 = v := Option.some.inj h
            exact ⟨obj, exceptToOption_eq_some h5⟩
          next h5 =>
            exact ⟨attemptToFixJson obj, exceptToOption_eq_some h⟩
        next h4 => exact Option.noConfusion h

/-- C1: for every behaviour of the `JSON.parse` and code-block-regex
built-ins and every input text, `parseJsonFromText` returns a value —
either a value actually produced by the parser, or one of the four
typed default fallbacks; no exception escapes its boundary. -/
theorem parseJsonFromText_total (jsonParse : String → Except Unit Json)
    (extract : String → Option String) (t : String) :
    (∃ s v, jsonParse s = Except.ok v ∧
      parseJsonFromText jsonParse extract t = Recovered.parsed v) ∨
    parseJsonFromText jsonParse extract t = Recovered.planFallback getDefaultProjectPlan ∨
    parseJsonFromText jsonParse extract t = Recovered.structureFallback getDefaultProjectStructure ∨
    parseJsonFromText jsonParse extract t = Recovered.docsFallback getDefaultDocumentation ∨
    parseJsonFromText jsonParse extract t = Recovered.issuesFallback [] [] := by
  rcases h : tryStrategies jsonParse extract (String.mk (jsonStartCut (jsTrim t).data)) with _ | v
  · right
    have hfb : parseJsonFromText jsonParse extract t = chooseFallback t := by
      unfold parseJsonFromText
      rw [h]
    rw [hfb]
    unfold chooseFallback
    split_ifs
    · left; rfl
    · right; left; rfl
    · right; right; left; rfl
    · right; right; right; rfl
    · right; left; rfl
  · left
    obtain ⟨s, hs⟩ := tryStrategies_parse_source jsonParse extract _ v h
    refine ⟨s, v, hs, ?_⟩
    unfold parseJsonFromText
    rw [h]

theorem codeBlockAttempt_none (jsonParse : String → Except Unit Json)
    (extract : String → Option String) (c : String)
    (hnone : ∀ s, exceptToOption (jsonParse s) = none) :
    codeBlockAttempt jsonParse extract c = none := by
  unfold codeBlockAttempt
  rcases hex : extract c with _ | inner
  · rfl
  · show (match exceptToOption (jsonParse inner) with
      | some v => some v
      | none => exceptToOption (jsonParse (attemptToFixJson inner))) = none
    rw [hnone inner]
    exact hnone (attemptToFixJson inner)

/-- C6: when every parse attempt fails, `parseJsonFromText` returns the
typed default selected from shape keywords of the original text, in
priority order — plan keys, then structure keys, then the documentation
key, then issue/suggestion keys — and the structure-shaped fallback when
no keyword matches. -/
theorem parseJsonFromText_fallback_priority (jsonParse : String → Except Unit Json)
    (extract : String → Option String) (t : String)
    (hp : ∀ s, jsonParse s = Except.error ()) :
    parseJsonFromText jsonParse extract t =
      (if jsIncludes t "projectName" || jsIncludes t "description" then
        Recovered.planFallback getDefaultProjectPlan
      else if jsIncludes t "directories" || jsIncludes t "files" then
        Recovered.structureFallback getDefaultProjectStructure
      else if jsIncludes t "readme" then
        Recovered.docsFallback getDefaultDocumentation
      else if jsIncludes t "issues" || jsIncludes t "suggestions" then
        Recovered.issuesFallback [] []
      else Recovered.structureFallback getDefaultProjectStructure) := by
  have hnone : ∀ s, exceptToOption (jsonParse s) = none := fun s => by
    rw [hp s]; rfl
  have htry : tryStrategies jsonParse extract (String.mk (jsonStartCut (jsTrim t).data)) = none := by
    unfold tryStrategies
    rcases hbs : balancedScanStr (String.mk (jsonStartCut (jsTrim t).data)) with _ | obj <;>
      simp [hbs, hnone, codeBlockAttempt_none jsonParse extract _ hnone]
  unfold parseJsonFromText
  rw [htry]
  rfl

/-- Witness for C6: with an always-failing parser and no code block, a
keyword-free text yields the structure-shaped fallback. -/
theorem parseJsonFromText_fallback_priority_witness :
    parseJsonFromText (fun _ => Except.error ()) (fun _ => none) "hello" =
      Recovered.structureFallback getDefaultProjectStructure := by
  have h := parseJsonFromText_fallback_priority (fun _ => Except.error ())
    (fun _ => none) "hello" (fun _ => rfl)
  rw [h]
  rfl

end CodeGen
